import Mathlib

/-!
Verification of the TM1629 LED-display/keypad driver core.

The definitions below are a shallow embedding of the driver sources:

 - machine bytes are `Nat` values kept below 256 (with explicit `% 256`
   where the C code truncates), 32-bit accumulators use explicit
   `% 4294967296`;
 - the 16-byte display-register shadow image is a function `Nat → Nat`
   (indices 0..15 are meaningful, matching `uint8_t DisplayRegister[16]`);
 - the byte stream sent to the chip is modelled as a list of events:
   strobe-line writes (`stb`) and byte-group writes (`wr`), from which
   `brackets` recovers the bracketed command sequences;
 - GPIO platform primitives are modelled by their result values; the
   call sequence issued by a byte transfer is an explicit trace.
-/

/-- Result enumeration of the driver API (`TM1629_Result_t`): `OK = 0`,
`FAIL = -1` in the source. -/
inductive TM1629_Result where
  | OK
  | FAIL
deriving DecidableEq

/-- Display wiring polarity (`TM1629_DisplayType_t`). -/
inductive TM1629_DisplayType where
  | comCathode
  | comAnode
deriving DecidableEq

/-- Handler state (`TM1629_Handler_t`): polarity plus the 16-byte
display-register shadow image (meaningful under common-anode mode). -/
structure TM1629_Handler where
  DisplayType : TM1629_DisplayType
  DisplayRegister : Nat → Nat

/-- Chip-bus event: a strobe (enable) line write or a group of data bytes
written by one `TM1629_WriteBytes` call. -/
inductive TM1629_Ev where
  | stb (state : Nat)
  | wr (bytes : List Nat)

/-- Accumulator for `brackets`: walks the event list, collecting the bytes
written between a strobe-low and the matching strobe-high. -/
def bracketsAux : List TM1629_Ev → Option (List Nat) → List (List Nat)
  | [], none => []
  | [], some cur => [cur]
  | TM1629_Ev.stb s :: rest, none =>
      if s = 0 then bracketsAux rest (some []) else bracketsAux rest none
  | TM1629_Ev.stb s :: rest, some cur =>
      if s = 1 then cur :: bracketsAux rest none else bracketsAux rest (some cur)
  | TM1629_Ev.wr _ :: rest, none => bracketsAux rest none
  | TM1629_Ev.wr bs :: rest, some cur => bracketsAux rest (some (cur ++ bs))

/-- Bracketed command sequences of an event trace: each element is the
byte sequence sent while the enable line was held low. -/
def brackets (t : List TM1629_Ev) : List (List Nat) := bracketsAux t none

/-- Event trace of `TM1629_SetMultipleDisplayRegister`: one bracket with
the data command byte `0x40` (write, auto-increment, normal mode), then a
second bracket with the address command byte `0xC0 | StartAddr` followed
by `Count` payload bytes read from `digitData`. -/
def TM1629_SetMultipleDisplayRegister (digitData : Nat → Nat) (startAddr count : Nat) :
    List TM1629_Ev :=
  [TM1629_Ev.stb 0, TM1629_Ev.wr [64], TM1629_Ev.stb 1,
   TM1629_Ev.stb 0, TM1629_Ev.wr [(192 ||| startAddr) % 256],
   TM1629_Ev.wr ((List.range count).map digitData), TM1629_Ev.stb 1]

/-- Truncating 8-bit `x |= y` (`DisplayRegister[i] |= (1 << Shift)`). -/
def u8or (x y : Nat) : Nat := (x ||| y) % 256

/-- Truncating 8-bit `x &= ~(1 << s)` with a 32-bit integer complement
(`DisplayRegister[i] &= ~(1 << Shift)`). -/
def u8andNot (x s : Nat) : Nat := (x &&& (4294967295 ^^^ (1 <<< s))) % 256

/-- Pointwise update of the shadow-image function at one byte index. -/
def updateAt (reg : Nat → Nat) (i v : Nat) : Nat → Nat :=
  fun k => if k = i then v else reg k

/-- Inner loop of the common-anode scatter
(`for (; i < 16; i += 2, DigitDataBuff >>= 1)`): starting at byte index
`i`, step 2, write bit `shift` of each visited shadow byte from the low
bit of `buf`, shifting `buf` right once per step. -/
def scatterLoop (shift : Nat) (reg : Nat → Nat) (buf i : Nat) : Nat → Nat :=
  if i < 16 then
    scatterLoop shift
      (updateAt reg i
        (if buf &&& 1 ≠ 0 then u8or (reg i) (1 <<< shift) else u8andNot (reg i) shift))
      (buf >>> 1) (i + 2)
  else reg
termination_by 16 - i
decreasing_by omega

/-- One iteration of the outer digit loop of `TM1629_SetMultipleDigit`
(anode branch): digit `j + startAddr` below 8 scatters into the even
shadow bytes with `Shift = j + StartAddr`, otherwise into the odd bytes
with `Shift = (j + StartAddr) - 8`. -/
def scatterDigit (reg : Nat → Nat) (startAddr j d : Nat) : Nat → Nat :=
  if j + startAddr ≤ 7 then scatterLoop (j + startAddr) reg d 0
  else scatterLoop (j + startAddr - 8) reg d 1

/-- Outer digit loop of `TM1629_SetMultipleDigit` (anode branch): scatter
the remaining `count` digits `data j, data (j+1), ...` into the shadow. -/
def scatterAllAux (startAddr : Nat) (data : Nat → Nat) (reg : Nat → Nat) (j : Nat) :
    Nat → (Nat → Nat)
  | 0 => reg
  | n + 1 => scatterAllAux startAddr data (scatterDigit reg startAddr j (data j)) (j + 1) n

/-- `TM1629_SetMultipleDigit`: common-cathode writes the bytes directly
through `TM1629_SetMultipleDisplayRegister`; common-anode scatters the
digits into the shadow image and pushes the whole 16-byte image with
start address 0 and count 16. Returns the updated handler and the bus
event trace. -/
def TM1629_SetMultipleDigit (h : TM1629_Handler) (digitData : Nat → Nat)
    (startAddr count : Nat) : TM1629_Handler × List TM1629_Ev :=
  match h.DisplayType with
  | TM1629_DisplayType.comCathode =>
      (h, TM1629_SetMultipleDisplayRegister digitData startAddr count)
  | TM1629_DisplayType.comAnode =>
      let reg := scatterAllAux startAddr digitData h.DisplayRegister 0 count
      (⟨TM1629_DisplayType.comAnode, reg⟩, TM1629_SetMultipleDisplayRegister reg 0 16)

/-- The 40-entry hex/letter to seven-segment pattern table (`HexTo7Seg`). -/
def HexTo7Seg : List Nat :=
  [0x3F, 0x06, 0x5B, 0x4F, 0x66, 0x6D, 0x7D, 0x07, 0x7F, 0x6F,
   0x77, 0x7C, 0x39, 0x5E, 0x79, 0x71, 0x6F, 0x3D, 0x74, 0x76,
   0x05, 0x06, 0x0D, 0x30, 0x38, 0x54, 0x37, 0x5C, 0x3F, 0x73,
   0x67, 0x50, 0x6D, 0x78, 0x1C, 0x3E, 0x66, 0x08, 0x40, 0x01]

/-- Per-character body of `TM1629_StringTo7Seg`: the decimal-point flag is
`0x80` for the character `.` or the top bit of the input byte; the glyph
is looked up for the low 7 bits; an unsupported character yields 0 (the
`default` branch does not OR the decimal-point flag back in). -/
def TM1629_StringTo7Seg_char (ch : Nat) : Nat :=
  let decimalPoint := if ch = 46 then 128 else ch &&& 128
  let c := ch &&& 127
  if 48 ≤ c ∧ c ≤ 57 then HexTo7Seg.getD (c - 48) 0 ||| decimalPoint
  else match c with
  | 65 | 97 => HexTo7Seg.getD 10 0 ||| decimalPoint
  | 66 | 98 => HexTo7Seg.getD 11 0 ||| decimalPoint
  | 67 | 99 => HexTo7Seg.getD 12 0 ||| decimalPoint
  | 68 | 100 => HexTo7Seg.getD 13 0 ||| decimalPoint
  | 69 | 101 => HexTo7Seg.getD 14 0 ||| decimalPoint
  | 70 | 102 => HexTo7Seg.getD 15 0 ||| decimalPoint
  | 103 => HexTo7Seg.getD 16 0 ||| decimalPoint
  | 71 => HexTo7Seg.getD 17 0 ||| decimalPoint
  | 104 => HexTo7Seg.getD 18 0 ||| decimalPoint
  | 72 => HexTo7Seg.getD 19 0 ||| decimalPoint
  | 105 => HexTo7Seg.getD 20 0 ||| decimalPoint
  | 73 => HexTo7Seg.getD 21 0 ||| decimalPoint
  | 106 | 74 => HexTo7Seg.getD 22 0 ||| decimalPoint
  | 108 => HexTo7Seg.getD 23 0 ||| decimalPoint
  | 76 => HexTo7Seg.getD 24 0 ||| decimalPoint
  | 110 => HexTo7Seg.getD 25 0 ||| decimalPoint
  | 78 => HexTo7Seg.getD 26 0 ||| decimalPoint
  | 111 => HexTo7Seg.getD 27 0 ||| decimalPoint
  | 79 => HexTo7Seg.getD 28 0 ||| decimalPoint
  | 112 | 80 => HexTo7Seg.getD 29 0 ||| decimalPoint
  | 113 | 81 => HexTo7Seg.getD 30 0 ||| decimalPoint
  | 114 | 82 => HexTo7Seg.getD 31 0 ||| decimalPoint
  | 115 | 83 => HexTo7Seg.getD 32 0 ||| decimalPoint
  | 116 | 84 => HexTo7Seg.getD 33 0 ||| decimalPoint
  | 117 => HexTo7Seg.getD 34 0 ||| decimalPoint
  | 85 => HexTo7Seg.getD 35 0 ||| decimalPoint
  | 121 | 89 => HexTo7Seg.getD 36 0 ||| decimalPoint
  | 95 => HexTo7Seg.getD 37 0 ||| decimalPoint
  | 45 => HexTo7Seg.getD 38 0 ||| decimalPoint
  | 126 => HexTo7Seg.getD 39 0 ||| decimalPoint
  | _ => 0

/-- Loop of `TM1629_StringTo7Seg`: encode `count` characters read from
`str` into the output byte array. -/
def TM1629_StringTo7Seg_list (str : Nat → Nat) (count : Nat) : List Nat :=
  (List.range count).map (fun i => TM1629_StringTo7Seg_char (str i))

/-- Per-byte body of `TM1629_HexTo7Seg`: decimal-point flag from the top
bit, hex value from the low 7 bits (0..15 direct table lookup, letters
A..F by case, default 0 without the decimal-point flag). -/
def TM1629_HexTo7Seg_byte (hex : Nat) : Nat :=
  let decimalPoint := hex &&& 128
  let digit := hex &&& 127
  if digit ≤ 15 then HexTo7Seg.getD digit 0 ||| decimalPoint
  else match digit with
  | 65 | 97 => HexTo7Seg.getD 10 0 ||| decimalPoint
  | 66 | 98 => HexTo7Seg.getD 11 0 ||| decimalPoint
  | 67 | 99 => HexTo7Seg.getD 12 0 ||| decimalPoint
  | 68 | 100 => HexTo7Seg.getD 13 0 ||| decimalPoint
  | 69 | 101 => HexTo7Seg.getD 14 0 ||| decimalPoint
  | 70 | 102 => HexTo7Seg.getD 15 0 ||| decimalPoint
  | _ => 0

/-- Loop of `TM1629_HexTo7Seg` over `count` input bytes. -/
def TM1629_HexTo7Seg_list (hex : Nat → Nat) (count : Nat) : List Nat :=
  (List.range count).map (fun i => TM1629_HexTo7Seg_byte (hex i))

/-- `TM1629_SetMultipleDigit_HEX` (revision with the 16-byte local buffer):
cap the count at 16, encode, then delegate to `TM1629_SetMultipleDigit`. -/
def TM1629_SetMultipleDigit_HEX_B (h : TM1629_Handler) (digitData : Nat → Nat)
    (startAddr count : Nat) : TM1629_Handler × List TM1629_Ev :=
  let count := if count > 16 then 16 else count
  let out := TM1629_HexTo7Seg_list digitData count
  TM1629_SetMultipleDigit h (fun i => out.getD i 0) startAddr count

/-- `TM1629_SetMultipleDigit_CHAR` (revision with the 16-byte local
buffer): cap the count at 16, encode the characters, then delegate to
`TM1629_SetMultipleDigit`. -/
def TM1629_SetMultipleDigit_CHAR_B (h : TM1629_Handler) (str : Nat → Nat)
    (startAddr count : Nat) : TM1629_Handler × List TM1629_Ev :=
  let count := if count > 16 then 16 else count
  let out := TM1629_StringTo7Seg_list str count
  TM1629_SetMultipleDigit h (fun i => out.getD i 0) startAddr count

/-- `TM1629_SetSingleDigit_CHAR` (revision delegating to
`TM1629_StringTo7Seg`): the local byte `DigitData` is initialised to 0 and
its own address is passed both as the one-character input string and as
the output buffer, so the character argument is never read. The result is
the pair (segment byte, digit position) handed to `TM1629_SetSingleDigit`. -/
def TM1629_SetSingleDigit_CHAR_B (ch digitPos : Nat) : Nat × Nat :=
  let digitData : Nat := 0
  let digitData := (TM1629_StringTo7Seg_list (fun _ => digitData) 1).getD 0 0
  (digitData, digitPos)

/-- Supported alphabet of the character encoder as the specification
states it: the decimal digits plus the documented letter/symbol set
(both cases where the source accepts both). -/
def supportedChar (c : Nat) : Bool :=
  decide (48 ≤ c ∧ c ≤ 57) ||
  ([65, 97, 66, 98, 67, 99, 68, 100, 69, 101, 70, 102, 103, 71, 104, 72,
    105, 73, 106, 74, 108, 76, 110, 78, 111, 79, 112, 80, 113, 81, 114, 82,
    115, 83, 116, 84, 117, 85, 121, 89, 95, 45, 126] : List Nat).contains c

/-- One pair of result-bit emissions of `TM1629_ScanKeys` for key-group
mask `kn` and one key register byte: shift the 32-bit accumulator left,
OR in the `Kn << 4` bit, shift left again, OR in the `Kn` bit. -/
def scanKeysEmitPair (regByte kn buff : Nat) : Nat :=
  let b1 := (buff <<< 1) % 4294967296
  let b2 := if regByte &&& (kn <<< 4) ≠ 0 then b1 ||| 1 else b1
  let b3 := (b2 <<< 1) % 4294967296
  if regByte &&& kn ≠ 0 then b3 ||| 1 else b3

/-- Register loop of `TM1629_ScanKeys` (`for (int8_t j = 3; j >= 0; j--)`),
with `t` registers left to process (register indices `t-1` down to 0). -/
def scanKeysRegLoop (regs : Nat → Nat) (kn : Nat) : Nat → Nat → Nat
  | buff, 0 => buff
  | buff, t + 1 => scanKeysRegLoop regs kn (scanKeysEmitPair (regs t) kn buff) t

/-- Group loop of `TM1629_ScanKeys`: `t` key-number groups left; the
walking bit `Kn` doubles (as an 8-bit value) after each group. -/
def scanKeysGroupLoop (regs : Nat → Nat) : Nat → Nat → Nat → Nat
  | _, buff, 0 => buff
  | kn, buff, t + 1 =>
      scanKeysGroupLoop regs ((kn <<< 1) % 256) (scanKeysRegLoop regs kn buff 4) t

/-- Decode step of `TM1629_ScanKeys`: assemble the 32-bit key mask from
the 4 key-scan register bytes. -/
def TM1629_ScanKeys_decode (regs : Nat → Nat) : Nat := scanKeysGroupLoop regs 1 0 4

/-- Emission pair as the specification words it: group selected by the
walking bit `1 <<< i`, high (`+4`) bit first, then the base bit, each
emission shifting the accumulated result left by one bit. -/
def scanKeysSpecEmit (regByte i buff : Nat) : Nat :=
  let b1 := (buff <<< 1) ||| (if regByte &&& ((1 <<< i) <<< 4) ≠ 0 then 1 else 0)
  (b1 <<< 1) ||| (if regByte &&& (1 <<< i) ≠ 0 then 1 else 0)

/-- Specification fold, inner part: registers R3 down to R0 for one
key-number group. -/
def scanKeysSpecReg (regs : Nat → Nat) (i buff : Nat) : Nat :=
  ([3, 2, 1, 0] : List Nat).foldl (fun b j => scanKeysSpecEmit (regs j) i b) buff

/-- Specification fold of the `ScanKeys` decode: four key-number groups
K1..K4 in order, registers descending, two bits per register. -/
def scanKeysSpecFold (regs : Nat → Nat) : Nat :=
  (List.range 4).foldl (fun b i => scanKeysSpecReg regs i b) 0

/-- Key-scan register bytes of the specification test. -/
def scanRegsC3 : Nat → Nat := fun j => if j = 0 then 1 else 0

/-- GPIO platform primitive results (`TM1629_Platform_t.GPIO`): each
primitive reports an `int8_t` status, negative on failure. -/
structure TM1629_GPIO_Platform where
  dirDio : Nat → Int
  writeDio : Nat → Int
  writeClk : Nat → Int
  delayUs : Nat → Int

/-- One platform primitive invocation of the GPIO byte transport. -/
inductive TM1629_PCall where
  | dirDio (dir : Nat)
  | writeDio (state : Nat)
  | writeClk (state : Nat)
  | delayUs (t : Nat)
deriving DecidableEq

/-- Bit loop of `TM1629_WriteBytesGPIO` for one byte (`for (uint8_t i = 0;
i < 8; ++i, Buff >>= 1)`): clock low, delay, data bit, clock high, delay. -/
def writeBitsCalls (buff : Nat) : Nat → List TM1629_PCall
  | 0 => []
  | n + 1 =>
      TM1629_PCall.writeClk 0 :: TM1629_PCall.delayUs 1 ::
      TM1629_PCall.writeDio (buff &&& 1) :: TM1629_PCall.writeClk 1 ::
      TM1629_PCall.delayUs 1 :: writeBitsCalls (buff >>> 1) n

/-- Byte loop of `TM1629_WriteBytesGPIO`. -/
def writeBytesCalls : List Nat → List TM1629_PCall
  | [] => []
  | b :: rest => writeBitsCalls b 8 ++ writeBytesCalls rest

/-- `TM1629_WriteBytesGPIO`: sets the data direction, clocks out every
byte LSB-first, and returns 0; none of the platform primitive results is
consulted. The trace of issued primitive calls is returned with the
status. -/
def TM1629_WriteBytesGPIO_model (p : TM1629_GPIO_Platform) (data : List Nat) :
    List TM1629_PCall × Int :=
  (TM1629_PCall.dirDio 1 :: writeBytesCalls data, 0)

/-- A platform whose primitives all signal failure (-1). -/
def failPlatform : TM1629_GPIO_Platform :=
  ⟨fun _ => -1, fun _ => -1, fun _ => -1, fun _ => -1⟩

/-- `TM1629_CHECK_RES_PLATFORM` (`(FUNC >= 0)`): a platform result counts
as success when it is at least 0. -/
def TM1629_CHECK_RES_PLATFORM (res : Int) : Bool := decide (0 ≤ res)

/-- `TM1629_DeInit`: if the optional platform DeInit primitive is present
and its result passes `TM1629_CHECK_RES_PLATFORM`, return `FAIL`;
otherwise return `OK`. -/
def TM1629_DeInit (deinitRes : Option Int) : TM1629_Result :=
  match deinitRes with
  | some res =>
      if TM1629_CHECK_RES_PLATFORM res then TM1629_Result.FAIL else TM1629_Result.OK
  | none => TM1629_Result.OK

/-- Byte-array indices stored by the encoding loop of the
`TM1629_SetMultipleDigit_HEX` revision that encodes into
`uint8_t DigitDataHEX[10]`: the loop writes `DigitDataHEX[i]` for
`i = 0 .. Count-1` with no cap on `Count`. -/
def TM1629_SetMultipleDigit_HEX_C_writes (count : Nat) : List Nat := List.range count

/-- Byte-array indices stored by the encoding loop of the
`TM1629_SetMultipleDigit_CHAR` revision that encodes into
`uint8_t DigitDataHEX[10]`: the loop writes `DigitDataHEX[i]` for
`i = 0 .. Count-1` with no cap on `Count`. -/
def TM1629_SetMultipleDigit_CHAR_C_writes (count : Nat) : List Nat := List.range count

/-- Length of the local encode buffer in that revision. -/
def TM1629_DIGIT_BUFFER_LEN_C : Nat := 10

/-! Helper lemmas shared by several claim theorems. -/

theorem map_range_getD (l : List Nat) :
    (List.range l.length).map (fun i => l.getD i 0) = l := by
  apply List.ext_getElem
  · simp
  · intro i h1 h2
    simp [List.getD, List.getElem?_eq_getElem h2]

theorem getD_map_range (f : Nat → Nat) (i n : Nat) (h : i < n) :
    ((List.range n).map f).getD i 0 = f i := by
  simp [List.getD, List.getElem?_map, List.getElem?_range, h]

theorem map_range_getD_of_length (l : List Nat) (n : Nat) (h : l.length = n) :
    (List.range n).map (fun i => l.getD i 0) = l := by
  subst h
  exact map_range_getD l

theorem brackets_setMultipleDisplayRegister (digitData : Nat → Nat) (s c : Nat) :
    brackets (TM1629_SetMultipleDisplayRegister digitData s c) =
      [[64], ((192 ||| s) % 256) :: (List.range c).map digitData] := by
  simp [brackets, bracketsAux, TM1629_SetMultipleDisplayRegister]

theorem ballLT_ten (count : Nat) : (∀ i < count, i < 10) ↔ count ≤ 10 := by
  constructor
  · intro h
    by_contra hc
    have := h 10 (by omega)
    omega
  · intro h i hi
    omega

/-- Claim C5: a common-cathode SetMultipleDigit issues exactly two
bracketed command sequences: one containing only the data command byte
0x40, then one containing the address command byte 0xC0 OR startAddress
followed immediately by exactly the count payload bytes unchanged; the
handler state is untouched. -/
theorem TM1629_SetMultipleDigit_cathode_brackets (h : TM1629_Handler)
    (data : Nat → Nat) (s c : Nat) (hT : h.DisplayType = TM1629_DisplayType.comCathode) :
    brackets (TM1629_SetMultipleDigit h data s c).2 =
      [[64], ((192 ||| s) % 256) :: (List.range c).map data] ∧
    (TM1629_SetMultipleDigit h data s c).1 = h := by
  obtain ⟨dt, reg⟩ := h
  simp only at hT
  subst hT
  exact ⟨brackets_setMultipleDisplayRegister data s c, rfl⟩

/-- Claim C5 witness: the specification test vector. Writing the segment
bytes 0x3F 0x06 0x5B 0x4F at start address 0 on a common-cathode handler
yields the bracket sequence [0x40] then [0xC0, 0x3F, 0x06, 0x5B, 0x4F]. -/
theorem TM1629_SetMultipleDigit_cathode_brackets_witness :
    brackets (TM1629_SetMultipleDigit ⟨TM1629_DisplayType.comCathode, fun _ => 0⟩
        (fun i => [63, 6, 91, 79].getD i 0) 0 4).2 =
      [[64], [192, 63, 6, 91, 79]] := by
  have h := (TM1629_SetMultipleDigit_cathode_brackets
    ⟨TM1629_DisplayType.comCathode, fun _ => 0⟩
    (fun i => [63, 6, 91, 79].getD i 0) 0 4 rfl).1
  rw [h]
  decide

/-- Claim C7 counterexample: TM1629_SetMultipleDigit itself does not cap
the count at 16: on a common-cathode handler with count 17 the second
bracket carries 18 bytes (address byte plus 17 digit bytes), so 17 digit
bytes are written, more than 16. -/
theorem TM1629_SetMultipleDigit_no_cap_counterexample :
    ((brackets (TM1629_SetMultipleDigit ⟨TM1629_DisplayType.comCathode, fun _ => 0⟩
        (fun _ => 0) 0 17).2).getD 1 []).length = 18 ∧ 16 < 18 - 1 := by
  constructor
  · decide
  · decide

/-- Claim C7 (amended): the HEX and CHAR multi-digit variants of the
16-byte-buffer revision cap the effective count at 16 (they encode and
write min(count,16) digit bytes), while TM1629_SetMultipleDigit itself
performs no cap and writes exactly the supplied count of digit bytes in
common-cathode mode. Digit bytes are counted from the second bracket of
the issued trace (address byte excluded). -/
theorem TM1629_SetMultipleDigit_count_cap (h : TM1629_Handler)
    (data : Nat → Nat) (s c : Nat) (hT : h.DisplayType = TM1629_DisplayType.comCathode) :
    (((brackets (TM1629_SetMultipleDigit_HEX_B h data s c).2).getD 1 []).length
        = 1 + min c 16) ∧
    (((brackets (TM1629_SetMultipleDigit_CHAR_B h data s c).2).getD 1 []).length
        = 1 + min c 16) ∧
    (((brackets (TM1629_SetMultipleDigit h data s c).2).getD 1 []).length = 1 + c) := by
  obtain ⟨dt, reg⟩ := h
  simp only at hT
  subst hT
  have hmin : (if c > 16 then 16 else c) = min c 16 := by
    split <;> omega
  refine ⟨?_, ?_, ?_⟩
  · simp [TM1629_SetMultipleDigit_HEX_B, TM1629_SetMultipleDigit,
      brackets_setMultipleDisplayRegister, hmin]
    omega
  · simp [TM1629_SetMultipleDigit_CHAR_B, TM1629_SetMultipleDigit,
      brackets_setMultipleDisplayRegister, hmin]
    omega
  · simp [TM1629_SetMultipleDigit, brackets_setMultipleDisplayRegister]
    omega

/-- Claim C7 witness: with count 20 the HEX variant writes 16 digit
bytes; the raw call with count 20 writes 20. -/
theorem TM1629_SetMultipleDigit_count_cap_witness :
    (((brackets (TM1629_SetMultipleDigit_HEX_B
        ⟨TM1629_DisplayType.comCathode, fun _ => 0⟩ (fun _ => 0) 0 20).2).getD 1 []).length
      = 1 + min 20 16) ∧
    (((brackets (TM1629_SetMultipleDigit
        ⟨TM1629_DisplayType.comCathode, fun _ => 0⟩ (fun _ => 0) 0 20).2).getD 1 []).length
      = 1 + 20) := by
  have h := TM1629_SetMultipleDigit_count_cap
    ⟨TM1629_DisplayType.comCathode, fun _ => 0⟩ (fun _ => 0) 0 20 rfl
  exact ⟨h.1, h.2.2⟩

/-- Claim C4 counterexample: with a platform whose every primitive
signals failure, a one-byte GPIO write still issues its full 41-call
sequence (the failing direction call plus 40 more) and returns status 0
(success), instead of aborting after the first failing call and
returning a failure status. -/
theorem TM1629_WriteBytesGPIO_no_abort_counterexample :
    failPlatform.dirDio 1 < 0 ∧
    (TM1629_WriteBytesGPIO_model failPlatform [0]).2 = 0 ∧
    (TM1629_WriteBytesGPIO_model failPlatform [0]).1.length = 41 := by
  refine ⟨by decide, rfl, by decide⟩

/-- Claim C4 (amended): the GPIO byte write never consults the platform
primitive results: for every platform and every byte list the status is
0 (success) and the issued call sequence is the same fixed sequence
regardless of the platform results, so no error aborts the transfer. -/
theorem TM1629_WriteBytesGPIO_ignores_results (p q : TM1629_GPIO_Platform)
    (data : List Nat) :
    (TM1629_WriteBytesGPIO_model p data).2 = 0 ∧
    (TM1629_WriteBytesGPIO_model p data).1 = (TM1629_WriteBytesGPIO_model q data).1 :=
  ⟨rfl, rfl⟩

/-- Claim C8: the revision of TM1629_SetSingleDigit_CHAR that delegates
to TM1629_StringTo7Seg discards its character argument: the segment byte
passed on to TM1629_SetSingleDigit is the encoding of the byte 0,
whatever character is supplied. -/
theorem TM1629_SetSingleDigit_CHAR_B_discards_input (ch pos : Nat) :
    (TM1629_SetSingleDigit_CHAR_B ch pos).1 = TM1629_StringTo7Seg_char 0 ∧
    TM1629_SetSingleDigit_CHAR_B ch pos = TM1629_SetSingleDigit_CHAR_B 0 pos :=
  ⟨rfl, rfl⟩

/-- Claim C9: TM1629_DeInit returns FAIL exactly when the supplied DeInit
primitive reports success (a result at least 0) and OK when it reports
failure; with no DeInit primitive it returns OK. -/
theorem TM1629_DeInit_inverted_result :
    (∀ r : Int, (TM1629_DeInit (some r) = TM1629_Result.FAIL ↔ 0 ≤ r)) ∧
    TM1629_DeInit none = TM1629_Result.OK := by
  constructor
  · intro r
    by_cases h : (0 : Int) ≤ r
    · simp [TM1629_DeInit, TM1629_CHECK_RES_PLATFORM, h]
    · simp [TM1629_DeInit, TM1629_CHECK_RES_PLATFORM, h]
  · rfl

/-- Claim C10: the encoding loops of the revision with the 10-element
local buffer write indices 0..Count-1; every written index is within the
10-element buffer exactly when Count is at most 10, so any Count above
10 writes out of bounds. -/
theorem TM1629_SetMultipleDigit_C_buffer_bounds (count : Nat) :
    ((∀ i ∈ TM1629_SetMultipleDigit_HEX_C_writes count,
        i < TM1629_DIGIT_BUFFER_LEN_C) ↔ count ≤ 10) ∧
    ((∀ i ∈ TM1629_SetMultipleDigit_CHAR_C_writes count,
        i < TM1629_DIGIT_BUFFER_LEN_C) ↔ count ≤ 10) := by
  constructor
  · simpa [TM1629_SetMultipleDigit_HEX_C_writes, TM1629_DIGIT_BUFFER_LEN_C,
      List.mem_range] using ballLT_ten count
  · simpa [TM1629_SetMultipleDigit_CHAR_C_writes, TM1629_DIGIT_BUFFER_LEN_C,
      List.mem_range] using ballLT_ten count

/-- Claim C3 counterexample: for the synthetic key-scan register bytes
R0 = 0x01, R1 = R2 = R3 = 0, the decoded mask is not 1, so bit 0 of the
output is not the set bit. -/
theorem TM1629_ScanKeys_R0_counterexample :
    TM1629_ScanKeys_decode scanRegsC3 ≠ 1 := by decide

/-- Claim C3 (amended): for the synthetic key-scan register bytes
R0 = 0x01, R1 = R2 = R3 = 0, the decoded mask has exactly bit 24 set
(the first emitted group K1 lands in the top byte of the accumulator). -/
theorem TM1629_ScanKeys_R0_amended :
    TM1629_ScanKeys_decode scanRegsC3 = 2 ^ 24 := by decide

/-- Claim C6: every input character whose 7-bit value (the decimal-point
flag bit is carried separately) lies outside the supported alphabet
encodes to the blank pattern 0x00; the multi-digit encoder encodes every
position independently, so an unsupported character never aborts the
surrounding write, and the common-cathode multi-digit character write
still pushes the full encoded payload. -/
theorem TM1629_StringTo7Seg_unsupported_blank :
    (∀ ch < 256, supportedChar (ch &&& 127) = false → TM1629_StringTo7Seg_char ch = 0) ∧
    (∀ (str : Nat → Nat) (count i : Nat), i < count →
      (TM1629_StringTo7Seg_list str count).getD i 0 = TM1629_StringTo7Seg_char (str i)) ∧
    (∀ (h : TM1629_Handler) (str : Nat → Nat) (s c : Nat),
      h.DisplayType = TM1629_DisplayType.comCathode →
      brackets (TM1629_SetMultipleDigit_CHAR_B h str s c).2 =
        [[64], ((192 ||| s) % 256) :: TM1629_StringTo7Seg_list str (min c 16)]) := by
  refine ⟨by set_option maxRecDepth 4000 in decide, ?_, ?_⟩
  · intro str count i hi
    exact getD_map_range _ i count hi
  · intro h str s c hT
    obtain ⟨dt, reg⟩ := h
    simp only at hT
    subst hT
    have hmin : (if c > 16 then 16 else c) = min c 16 := by split <;> omega
    simp only [TM1629_SetMultipleDigit_CHAR_B, TM1629_SetMultipleDigit, hmin]
    rw [brackets_setMultipleDisplayRegister]
    have hlen : (TM1629_StringTo7Seg_list str (min c 16)).length = min c 16 := by
      simp [TM1629_StringTo7Seg_list]
    rw [map_range_getD_of_length _ _ hlen]

/-- Claim C6 witness: the unsupported character 0x2A encodes to 0x00, and
the three-character write 0x31 0x2A 0x32 on a common-cathode handler still
pushes all three encoded bytes, the middle one blank. -/
theorem TM1629_StringTo7Seg_unsupported_blank_witness :
    TM1629_StringTo7Seg_char 42 = 0 ∧
    brackets (TM1629_SetMultipleDigit_CHAR_B ⟨TM1629_DisplayType.comCathode, fun _ => 0⟩
        (fun i => [49, 42, 50].getD i 0) 0 3).2 = [[64], [192, 6, 0, 91]] := by
  constructor
  · exact TM1629_StringTo7Seg_unsupported_blank.1 42 (by decide) (by decide)
  · have h := TM1629_StringTo7Seg_unsupported_blank.2.2
      ⟨TM1629_DisplayType.comCathode, fun _ => 0⟩ (fun i => [49, 42, 50].getD i 0) 0 3 rfl
    rw [h]
    decide

/-! ScanKeys: equivalence of the source decode loop with the emission
fold described by the specification. -/

theorem emitBit_lt (x b m : Nat) (hx : x < 2 ^ m) (hb : b ≤ 1) :
    (x <<< 1) ||| b < 2 ^ (m + 1) := by
  have h2 : 0 < 2 ^ m := Nat.two_pow_pos m
  have h1 : x <<< 1 < 2 ^ (m + 1) := by
    rw [Nat.shiftLeft_eq, pow_one, pow_succ]
    omega
  have hb2 : b < 2 ^ (m + 1) := by
    rw [pow_succ]
    omega
  exact Nat.or_lt_two_pow h1 hb2

theorem scanKeysSpecEmit_lt (r i buff m : Nat) (h : buff < 2 ^ m) :
    scanKeysSpecEmit r i buff < 2 ^ (m + 2) := by
  unfold scanKeysSpecEmit
  have hb1 : (buff <<< 1) ||| (if r &&& ((1 <<< i) <<< 4) ≠ 0 then 1 else 0) <
      2 ^ (m + 1) := emitBit_lt _ _ _ h (by split <;> omega)
  have hb2 := emitBit_lt _ (if r &&& (1 <<< i) ≠ 0 then 1 else 0) _ hb1 (by split <;> omega)
  simpa [Nat.add_assoc] using hb2

theorem scanKeysEmitPair_eq (r i buff : Nat) (h : buff < 2 ^ 30) :
    scanKeysEmitPair r (1 <<< i) buff = scanKeysSpecEmit r i buff := by
  have h30 : buff < 1073741824 := by
    have : (2 : Nat) ^ 30 = 1073741824 := by norm_num
    omega
  unfold scanKeysEmitPair scanKeysSpecEmit
  have e1 : (buff <<< 1) % 4294967296 = buff <<< 1 := by
    rw [Nat.shiftLeft_eq, pow_one]
    omega
  rw [e1]
  have hb1 : ∀ b : Nat, b ≤ 1 → (buff <<< 1) ||| b < 2147483648 := by
    intro b hb
    have := emitBit_lt buff b 30 h hb
    have h31 : (2 : Nat) ^ (30 + 1) = 2147483648 := by norm_num
    omega
  by_cases c1 : r &&& ((1 <<< i) <<< 4) ≠ 0
  · simp only [if_pos c1]
    have hx : (buff <<< 1) ||| 1 < 2147483648 := hb1 1 (by omega)
    have e2 : (((buff <<< 1) ||| 1) <<< 1) % 4294967296 = ((buff <<< 1) ||| 1) <<< 1 := by
      rw [Nat.shiftLeft_eq, pow_one]
      omega
    rw [e2]
    by_cases c2 : r &&& (1 <<< i) ≠ 0
    · simp only [if_pos c2]
    · simp only [if_neg c2, Nat.or_zero]
  · simp only [if_neg c1]
    have hx : buff <<< 1 < 2147483648 := by
      rw [Nat.shiftLeft_eq, pow_one]
      omega
    have e2 : ((buff <<< 1) <<< 1) % 4294967296 = (buff <<< 1) <<< 1 := by
      rw [Nat.shiftLeft_eq (buff <<< 1), pow_one]
      omega
    rw [e2]
    by_cases c2 : r &&& (1 <<< i) ≠ 0
    · simp only [if_pos c2, Nat.or_zero]
    · simp only [if_neg c2, Nat.or_zero]

theorem scanKeysRegLoop_eq (regs : Nat → Nat) (i : Nat) :
    ∀ t buff m : Nat, buff < 2 ^ m → 2 * t + m ≤ 32 →
      scanKeysRegLoop regs (1 <<< i) buff t =
        ((List.range t).reverse).foldl (fun b j => scanKeysSpecEmit (regs j) i b) buff ∧
      scanKeysRegLoop regs (1 <<< i) buff t < 2 ^ (m + 2 * t) := by
  intro t
  induction t with
  | zero =>
      intro buff m hb hm
      exact ⟨rfl, by simpa using hb⟩
  | succ t ih =>
      intro buff m hb hm
      have hb30 : buff < 2 ^ 30 :=
        lt_of_lt_of_le hb (Nat.pow_le_pow_right (by omega) (by omega))
      have he := scanKeysEmitPair_eq (regs t) i buff hb30
      have hlt := scanKeysSpecEmit_lt (regs t) i buff m hb
      have step : scanKeysRegLoop regs (1 <<< i) buff (t + 1) =
          scanKeysRegLoop regs (1 <<< i) (scanKeysSpecEmit (regs t) i buff) t := by
        rw [show scanKeysRegLoop regs (1 <<< i) buff (t + 1) =
          scanKeysRegLoop regs (1 <<< i) (scanKeysEmitPair (regs t) (1 <<< i) buff) t
          from rfl, he]
      obtain ⟨ih1, ih2⟩ := ih (scanKeysSpecEmit (regs t) i buff) (m + 2) hlt (by omega)
      constructor
      · rw [step, ih1, List.range_succ, List.reverse_append]
        simp
      · rw [step]
        have harith : m + 2 + 2 * t = m + 2 * (t + 1) := by omega
        rw [← harith]
        exact ih2

theorem scanKeysGroupLoop_eq (regs : Nat → Nat) :
    ∀ t i0 buff m : Nat, i0 + t ≤ 4 → 8 * t + m ≤ 32 → buff < 2 ^ m →
      scanKeysGroupLoop regs (1 <<< i0) buff t =
        (List.range' i0 t).foldl (fun b i => scanKeysSpecReg regs i b) buff := by
  intro t
  induction t with
  | zero => intro i0 buff m h1 h2 hb; rfl
  | succ t ih =>
      intro i0 buff m h1 h2 hb
      obtain ⟨hr1, hr2⟩ := scanKeysRegLoop_eq regs i0 4 buff m hb (by omega)
      have hrs : scanKeysRegLoop regs (1 <<< i0) buff 4 = scanKeysSpecReg regs i0 buff := by
        rw [hr1, show (List.range 4).reverse = [3, 2, 1, 0] from by decide]
        rfl
      have hkn : ((1 <<< i0) <<< 1) % 256 = 1 <<< (i0 + 1) := by
        rw [Nat.one_shiftLeft, Nat.one_shiftLeft, Nat.shiftLeft_eq, pow_one, ← pow_succ]
        apply Nat.mod_eq_of_lt
        calc 2 ^ (i0 + 1) ≤ 2 ^ 4 := Nat.pow_le_pow_right (by omega) (by omega)
          _ < 256 := by norm_num
      have step : scanKeysGroupLoop regs (1 <<< i0) buff (t + 1) =
          scanKeysGroupLoop regs (1 <<< (i0 + 1)) (scanKeysSpecReg regs i0 buff) t := by
        rw [show scanKeysGroupLoop regs (1 <<< i0) buff (t + 1) =
          scanKeysGroupLoop regs (((1 <<< i0) <<< 1) % 256)
            (scanKeysRegLoop regs (1 <<< i0) buff 4) t from rfl, hkn, hrs]
      have hbnd : scanKeysSpecReg regs i0 buff < 2 ^ (m + 8) := by
        rw [← hrs]
        have harith : m + 2 * 4 = m + 8 := by omega
        rw [← harith]
        exact hr2
      rw [step, ih (i0 + 1) _ (m + 8) (by omega) (by omega) hbnd, List.range'_succ]
      simp

/-- Claim C2: the TM1629_ScanKeys decode assembles its 32-bit result in
exactly the emission order the specification fixes: four key-number
groups selected by a walking bit from 0x01 upward, registers R3 down to
R0 within each group, the high (Kn shifted left 4) bit before the base
Kn bit, each emission shifting the accumulator left once; for every
register input the decoded mask equals that fold. -/
theorem TM1629_ScanKeys_decode_eq_specFold (regs : Nat → Nat) :
    TM1629_ScanKeys_decode regs = scanKeysSpecFold regs := by
  have h := scanKeysGroupLoop_eq regs 4 0 0 0 (by omega) (by omega) (by norm_num)
  unfold scanKeysSpecFold
  rw [List.range_eq_range']
  exact h

/-! Common-anode scatter: bit-level characterisation of the shadow-image
update. -/

theorem u8or_lt (x y : Nat) : u8or x y < 256 := Nat.mod_lt _ (by omega)

theorem u8andNot_lt (x s : Nat) : u8andNot x s < 256 := Nat.mod_lt _ (by omega)

theorem testBit_u8or (x s m : Nat) (hx : x < 256) (hs : s < 8) :
    Nat.testBit (u8or x (1 <<< s)) m = if m = s then true else Nat.testBit x m := by
  have h256 : (2 : Nat) ^ 8 = 256 := by norm_num
  have hx8 : x < 2 ^ 8 := by omega
  have hp : (2 : Nat) ^ s < 2 ^ 8 := Nat.pow_lt_pow_right (by omega) hs
  have hlt : x ||| 2 ^ s < 2 ^ 8 := Nat.or_lt_two_pow hx8 hp
  unfold u8or
  rw [Nat.one_shiftLeft, Nat.mod_eq_of_lt (by omega), Nat.testBit_lor]
  by_cases hm : m = s
  · subst hm
    simp [Nat.testBit_two_pow_self]
  · rw [Nat.testBit_two_pow_of_ne (Ne.symm hm), if_neg hm]
    simp

theorem testBit_u8andNot (x s m : Nat) (hx : x < 256) (hs : s < 8) :
    Nat.testBit (u8andNot x s) m = if m = s then false else Nat.testBit x m := by
  unfold u8andNot
  have hle : x &&& (4294967295 ^^^ (1 <<< s)) ≤ x := Nat.and_le_left
  rw [Nat.mod_eq_of_lt (lt_of_le_of_lt hle hx), Nat.testBit_land, Nat.testBit_xor,
    show (4294967295 : Nat) = 2 ^ 32 - 1 from by norm_num,
    Nat.testBit_two_pow_sub_one, Nat.one_shiftLeft]
  by_cases hm : m = s
  · subst hm
    have hm32 : m < 32 := by omega
    simp [hm32, Nat.testBit_two_pow_self]
  · rw [Nat.testBit_two_pow_of_ne (Ne.symm hm), if_neg hm]
    by_cases hm32 : m < 32
    · simp [hm32]
    · have hxm : Nat.testBit x m = false := by
        apply Nat.testBit_lt_two_pow
        have h2 : (2 : Nat) ^ 8 ≤ 2 ^ m := Nat.pow_le_pow_right (by omega) (by omega)
        have h256 : (2 : Nat) ^ 8 = 256 := by norm_num
        omega
      simp [hm32, hxm]

theorem scatterLoop_apply (shift : Nat) :
    ∀ n reg buf i k, 16 - i = n →
      scatterLoop shift reg buf i k =
        if i ≤ k ∧ k < 16 ∧ (k - i) % 2 = 0 then
          (if Nat.testBit buf ((k - i) / 2) then u8or (reg k) (1 <<< shift)
           else u8andNot (reg k) shift)
        else reg k := by
  intro n
  induction n using Nat.strong_induction_on with
  | _ n ih =>
    intro reg buf i k hn
    by_cases hi : i < 16
    · rw [scatterLoop, if_pos hi]
      rw [ih (16 - (i + 2)) (by omega) _ _ _ _ rfl]
      by_cases hk : k = i
      · subst hk
        rw [if_neg (show ¬(k + 2 ≤ k ∧ k < 16 ∧ (k - (k + 2)) % 2 = 0) from by omega),
          if_pos (show k ≤ k ∧ k < 16 ∧ (k - k) % 2 = 0 from ⟨le_refl k, hi, by simp⟩)]
        simp only [updateAt, if_pos rfl, Nat.sub_self, Nat.zero_div]
        rcases Nat.mod_two_eq_zero_or_one buf with hb | hb <;>
          simp [Nat.and_one_is_mod, hb, Nat.testBit_zero]
      · have hup : updateAt reg i
            (if buf &&& 1 ≠ 0 then u8or (reg i) (1 <<< shift)
             else u8andNot (reg i) shift) k = reg k := by
          simp [updateAt, hk]
        by_cases hcond : i + 2 ≤ k ∧ k < 16 ∧ (k - (i + 2)) % 2 = 0
        · rw [if_pos hcond,
            if_pos (show i ≤ k ∧ k < 16 ∧ (k - i) % 2 = 0 from by omega), hup]
          have ht : Nat.testBit (buf >>> 1) ((k - (i + 2)) / 2) =
              Nat.testBit buf ((k - i) / 2) := by
            rw [Nat.testBit_shiftRight]
            congr 1
            omega
          rw [ht]
        · rw [if_neg hcond, hup,
            if_neg (show ¬(i ≤ k ∧ k < 16 ∧ (k - i) % 2 = 0) from
              fun hc => hcond (by obtain ⟨h1, h2, h3⟩ := hc; omega))]
    · rw [scatterLoop, if_neg hi,
        if_neg (show ¬(i ≤ k ∧ k < 16 ∧ (k - i) % 2 = 0) from
          fun hc => by obtain ⟨h1, h2, h3⟩ := hc; omega)]

theorem scatterLoop_lt (shift : Nat) (reg : Nat → Nat) (buf i : Nat)
    (hreg : ∀ q, q < 16 → reg q < 256) :
    ∀ k, k < 16 → scatterLoop shift reg buf i k < 256 := by
  intro k hk
  rw [scatterLoop_apply shift (16 - i) reg buf i k rfl]
  split
  · split
    · exact u8or_lt _ _
    · exact u8andNot_lt _ _
  · exact hreg k hk

theorem scatterDigit_testBit (reg : Nat → Nat) (s j d k m : Nat)
    (hreg : ∀ q, q < 16 → reg q < 256)
    (hd : j + s < 16) (hk : k < 16) (hm : m < 8) :
    Nat.testBit (scatterDigit reg s j d k) m =
      if m + 8 * (k % 2) = j + s then Nat.testBit d (k / 2)
      else Nat.testBit (reg k) m := by
  unfold scatterDigit
  by_cases hds : j + s ≤ 7
  · rw [if_pos hds, scatterLoop_apply (j + s) (16 - 0) reg d 0 k rfl]
    by_cases hke : k % 2 = 0
    · rw [if_pos (show 0 ≤ k ∧ k < 16 ∧ (k - 0) % 2 = 0 from by omega)]
      simp only [Nat.sub_zero]
      by_cases hb : Nat.testBit d (k / 2)
      · rw [if_pos hb, testBit_u8or (reg k) (j + s) m (hreg k hk) (by omega)]
        by_cases hm2 : m = j + s
        · rw [if_pos hm2, if_pos (show m + 8 * (k % 2) = j + s from by omega)]
          exact hb.symm
        · rw [if_neg hm2, if_neg (show ¬(m + 8 * (k % 2) = j + s) from by omega)]
      · rw [if_neg hb, testBit_u8andNot (reg k) (j + s) m (hreg k hk) (by omega)]
        by_cases hm2 : m = j + s
        · rw [if_pos hm2, if_pos (show m + 8 * (k % 2) = j + s from by omega)]
          simp only [Bool.not_eq_true] at hb
          exact hb.symm
        · rw [if_neg hm2, if_neg (show ¬(m + 8 * (k % 2) = j + s) from by omega)]
    · rw [if_neg (show ¬(0 ≤ k ∧ k < 16 ∧ (k - 0) % 2 = 0) from by omega),
        if_neg (show ¬(m + 8 * (k % 2) = j + s) from by omega)]
  · rw [if_neg hds, scatterLoop_apply (j + s - 8) (16 - 1) reg d 1 k rfl]
    by_cases hke : k % 2 = 1
    · rw [if_pos (show 1 ≤ k ∧ k < 16 ∧ (k - 1) % 2 = 0 from by omega)]
      have hidx : (k - 1) / 2 = k / 2 := by omega
      rw [hidx]
      by_cases hb : Nat.testBit d (k / 2)
      · rw [if_pos hb, testBit_u8or (reg k) (j + s - 8) m (hreg k hk) (by omega)]
        by_cases hm2 : m = j + s - 8
        · rw [if_pos hm2, if_pos (show m + 8 * (k % 2) = j + s from by omega)]
          exact hb.symm
        · rw [if_neg hm2, if_neg (show ¬(m + 8 * (k % 2) = j + s) from by omega)]
      · rw [if_neg hb, testBit_u8andNot (reg k) (j + s - 8) m (hreg k hk) (by omega)]
        by_cases hm2 : m = j + s - 8
        · rw [if_pos hm2, if_pos (show m + 8 * (k % 2) = j + s from by omega)]
          simp only [Bool.not_eq_true] at hb
          exact hb.symm
        · rw [if_neg hm2, if_neg (show ¬(m + 8 * (k % 2) = j + s) from by omega)]
    · rw [if_neg (show ¬(1 ≤ k ∧ k < 16 ∧ (k - 1) % 2 = 0) from by omega),
        if_neg (show ¬(m + 8 * (k % 2) = j + s) from by omega)]

theorem scatterDigit_lt (reg : Nat → Nat) (s j d : Nat)
    (hreg : ∀ q, q < 16 → reg q < 256) :
    ∀ k, k < 16 → scatterDigit reg s j d k < 256 := by
  intro k hk
  unfold scatterDigit
  split
  · exact scatterLoop_lt _ _ _ _ hreg k hk
  · exact scatterLoop_lt _ _ _ _ hreg k hk

theorem scatterAllAux_testBit (s : Nat) (data : Nat → Nat) :
    ∀ n j reg, (∀ q, q < 16 → reg q < 256) → j + s + n ≤ 16 →
      ∀ k, k < 16 → ∀ m, m < 8 →
        Nat.testBit (scatterAllAux s data reg j n k) m =
          if j + s ≤ m + 8 * (k % 2) ∧ m + 8 * (k % 2) < j + s + n then
            Nat.testBit (data (m + 8 * (k % 2) - s)) (k / 2)
          else Nat.testBit (reg k) m := by
  intro n
  induction n with
  | zero =>
      intro j reg hreg hle k hk m hm
      rw [if_neg (show ¬(j + s ≤ m + 8 * (k % 2) ∧ m + 8 * (k % 2) < j + s + 0) from
        by omega)]
      rfl
  | succ n ih =>
      intro j reg hreg hle k hk m hm
      rw [show scatterAllAux s data reg j (n + 1) =
        scatterAllAux s data (scatterDigit reg s j (data j)) (j + 1) n from rfl]
      rw [ih (j + 1) _ (scatterDigit_lt reg s j (data j) hreg) (by omega) k hk m hm]
      by_cases h1 : j + 1 + s ≤ m + 8 * (k % 2) ∧ m + 8 * (k % 2) < j + 1 + s + n
      · rw [if_pos h1,
          if_pos (show j + s ≤ m + 8 * (k % 2) ∧ m + 8 * (k % 2) < j + s + (n + 1) from
            by omega)]
      · rw [if_neg h1,
          scatterDigit_testBit reg s j (data j) k m hreg (by omega) hk hm]
        by_cases h2 : m + 8 * (k % 2) = j + s
        · rw [if_pos h2,
            if_pos (show j + s ≤ m + 8 * (k % 2) ∧ m + 8 * (k % 2) < j + s + (n + 1) from
              by omega)]
          have hix : m + 8 * (k % 2) - s = j := by omega
          rw [hix]
        · rw [if_neg h2,
            if_neg (show ¬(j + s ≤ m + 8 * (k % 2) ∧ m + 8 * (k % 2) < j + s + (n + 1))
              from by omega)]

/-- Claim C1: a common-anode SetMultipleDigit with start address s and
count c, s + c within 0..16, scatters each written digit d = s + j so
that bit (d mod 8) of shadow byte 2*b + (0 if d < 8 else 1) becomes bit
b of data j; every shadow bit whose digit index lies outside [s, s+c)
keeps its previous value; and the trace is exactly one full 16-byte push
with start address 0 (bracket [0x40], then bracket 0xC0 followed by the
entire 16-byte shadow image). -/
theorem TM1629_SetMultipleDigit_anode_scatter (h : TM1629_Handler) (data : Nat → Nat)
    (s c : Nat) (hT : h.DisplayType = TM1629_DisplayType.comAnode)
    (hreg : ∀ k, k < 16 → h.DisplayRegister k < 256) (hsc : s + c ≤ 16) :
    (∀ j, j < c → ∀ b, b < 8 →
      Nat.testBit ((TM1629_SetMultipleDigit h data s c).1.DisplayRegister
          (2 * b + (if s + j < 8 then 0 else 1))) ((s + j) % 8) =
        Nat.testBit (data j) b) ∧
    (∀ k, k < 16 → ∀ m, m < 8 →
      (m + 8 * (k % 2) < s ∨ s + c ≤ m + 8 * (k % 2)) →
      Nat.testBit ((TM1629_SetMultipleDigit h data s c).1.DisplayRegister k) m =
        Nat.testBit (h.DisplayRegister k) m) ∧
    brackets (TM1629_SetMultipleDigit h data s c).2 =
      [[64],
       192 :: (List.range 16).map (TM1629_SetMultipleDigit h data s c).1.DisplayRegister] := by
  obtain ⟨dt, reg⟩ := h
  simp only at hT hreg
  subst hT
  have hres : (TM1629_SetMultipleDigit ⟨TM1629_DisplayType.comAnode, reg⟩ data s c).1.DisplayRegister =
      scatterAllAux s data reg 0 c := rfl
  refine ⟨?_, ?_, ?_⟩
  · intro j hj b hb
    rw [hres]
    by_cases hsj : s + j < 8
    · rw [if_pos hsj,
        scatterAllAux_testBit s data c 0 reg hreg (by omega) (2 * b + 0) (by omega)
          ((s + j) % 8) (by omega),
        if_pos (show 0 + s ≤ (s + j) % 8 + 8 * ((2 * b + 0) % 2) ∧
          (s + j) % 8 + 8 * ((2 * b + 0) % 2) < 0 + s + c from by omega)]
      have e1 : (s + j) % 8 + 8 * ((2 * b + 0) % 2) - s = j := by omega
      have e2 : (2 * b + 0) / 2 = b := by omega
      rw [e1, e2]
    · rw [if_neg hsj,
        scatterAllAux_testBit s data c 0 reg hreg (by omega) (2 * b + 1) (by omega)
          ((s + j) % 8) (by omega),
        if_pos (show 0 + s ≤ (s + j) % 8 + 8 * ((2 * b + 1) % 2) ∧
          (s + j) % 8 + 8 * ((2 * b + 1) % 2) < 0 + s + c from by omega)]
      have e1 : (s + j) % 8 + 8 * ((2 * b + 1) % 2) - s = j := by omega
      have e2 : (2 * b + 1) / 2 = b := by omega
      rw [e1, e2]
  · intro k hk m hm hout
    rw [hres,
      scatterAllAux_testBit s data c 0 reg hreg (by omega) k hk m hm,
      if_neg (show ¬(0 + s ≤ m + 8 * (k % 2) ∧ m + 8 * (k % 2) < 0 + s + c) from
        by omega)]
  · have h2 : (TM1629_SetMultipleDigit ⟨TM1629_DisplayType.comAnode, reg⟩ data s c).2 =
        TM1629_SetMultipleDisplayRegister (scatterAllAux s data reg 0 c) 0 16 := rfl
    rw [h2, brackets_setMultipleDisplayRegister, hres]
    norm_num

/-- Claim C1 witness: common-anode handler with a zero shadow image,
segment byte 0xFF written to digit 0; bit 0 of the written digit goes to
bit 0 of shadow byte 6 (payload bit 3), matching bit 3 of 0xFF. -/
theorem TM1629_SetMultipleDigit_anode_scatter_witness :
    Nat.testBit ((TM1629_SetMultipleDigit ⟨TM1629_DisplayType.comAnode, fun _ => 0⟩
        (fun _ => 255) 0 1).1.DisplayRegister (2 * 3 + (if 0 + 0 < 8 then 0 else 1)))
      ((0 + 0) % 8) = Nat.testBit 255 3 :=
  (TM1629_SetMultipleDigit_anode_scatter ⟨TM1629_DisplayType.comAnode, fun _ => 0⟩
    (fun _ => 255) 0 1 rfl (fun k hk => by norm_num) (by omega)).1 0 (by omega) 3 (by omega)
